import Mathlib

/-!
Verification of the two orchestration scripts `start_basics.py` and
`stop_all.py` of the repository `local-ai-packaged`.

File text is modelled as `List Char`.  Python's substring test
(`pat in s`) is modelled by `List.IsInfix` and Python's
`str.replace pat repl` (for a nonempty pattern) by `replaceAll` below,
which replaces the leftmost occurrence and continues after the inserted
replacement, exactly as CPython does.
-/

/-- The literal placeholder token `'ultrasecretkey'` used by
`generate_searxng_secret_key` in `start_basics.py`. -/
def ultrasecretkey : List Char := "ultrasecretkey".toList

/-- The active capability-drop directive line searched for by
`check_and_fix_docker_compose_for_searxng` in `start_basics.py`. -/
def capDropLine : List Char := "cap_drop: - ALL".toList

/-- The sentinel comment form that `check_and_fix_docker_compose_for_searxng`
writes in place of the active directive on a first run. -/
def sentinelLine : List Char :=
  "# cap_drop: - ALL  # Temporarily commented out for first run".toList

/-- The characters `openssl rand -hex` can produce: lowercase hex digits. -/
def isLowerHex (c : Char) : Bool :=
  decide (('0' ≤ c ∧ c ≤ '9') ∨ ('a' ≤ c ∧ c ≤ 'f'))

/-- Worker for `replaceAll`: the pattern is `p0 :: ps` (kept nonempty, as in
CPython where an empty pattern is a different case never used by these
scripts).  At each position, if the pattern is a prefix of the remaining
text, the replacement `k` is emitted and scanning resumes after the matched
pattern; otherwise one character is copied.  The `fuel` argument only makes
the recursion structural: whenever `fuel ≥ c.length` the `0` row is
unreachable, so the function computes exactly CPython's left-to-right
non-overlapping replacement. -/
def replaceAllFuel (p0 : Char) (ps k : List Char) : Nat → List Char → List Char
  | _, [] => []
  | 0, c => c
  | fuel + 1, ch :: rest =>
    if (p0 :: ps) <+: (ch :: rest) then
      k ++ replaceAllFuel p0 ps k fuel (rest.drop ps.length)
    else
      ch :: replaceAllFuel p0 ps k fuel rest

/-- Python's `content.replace(p, k)` for a nonempty pattern `p`. -/
def replaceAll (p k c : List Char) : List Char :=
  match p with
  | [] => c
  | p0 :: ps => replaceAllFuel p0 ps k c.length c

/-! ## `generate_searxng_secret_key` (start_basics.py, lines 139-192)

Only the placeholder-replacement core is modelled: the function reads the
settings file, returns without writing when the placeholder is absent, and
otherwise substring-replaces every occurrence of the placeholder by the
value produced by `openssl rand -hex 32` and writes the result back.
`some new` models "the file is rewritten with `new`", `none` models "no
write happens". -/
def generate_searxng_secret_key (content key : List Char) : Option (List Char) :=
  if ultrasecretkey <:+: content then
    some (replaceAll ultrasecretkey key content)
  else
    none

/-! ## `check_and_fix_docker_compose_for_searxng` (start_basics.py, lines 194-260) -/

/-- Outcome of the container inspection performed by
`check_and_fix_docker_compose_for_searxng`:
`failure` is any exception raised while checking (caught by the inner
`except`), `noContainer` means `docker ps` returned no nonempty name, and
`execOut out` means a running container was found and the
`docker exec … sh -c "[ -f /etc/searxng/uwsgi.ini ] && echo 'found' || echo 'not_found'"`
command produced stdout `out`. -/
inductive Inspection where
  | failure
  | noContainer
  | execOut (out : List Char)

/-- The literal `"found"` tested by `if "found" in container_check.stdout`. -/
def foundToken : List Char := "found".toList

/-- The first-run classification computed by
`check_and_fix_docker_compose_for_searxng`: it defaults to `true`, stays
`true` when no container is running or the inspection fails, and for a
running container is `false` exactly when the string `"found"` occurs in
the stdout of the marker-file check. -/
def is_first_run : Inspection → Bool
  | .failure => true
  | .noContainer => true
  | .execOut out => !(decide (foundToken <:+: out))

/-- The write performed by `check_and_fix_docker_compose_for_searxng` on the
content of `docker-compose.yml`: on a first run with the active directive
present, the directive is replaced by the sentinel comment; on a non-first
run with the sentinel comment present, the sentinel is replaced back by the
directive; otherwise the file is not written (`none`). -/
def check_and_fix_docker_compose_for_searxng (insp : Inspection)
    (content : List Char) : Option (List Char) :=
  if is_first_run insp = true ∧ capDropLine <:+: content then
    some (replaceAll capDropLine sentinelLine content)
  else if is_first_run insp = false ∧ sentinelLine <:+: content then
    some (replaceAll sentinelLine capDropLine content)
  else
    none

/-! ## Retry loops of `start_supabase` and `start_basic_services`
(start_basics.py, lines 91-137)

Both functions run `for attempt in range(retries)` around one external
command: on success they return, on failure they sleep 5 seconds and retry
unless the attempt was the last one, in which case the exception is
re-raised.  `outcome attempt` tells whether the command succeeds on the
given (0-based) attempt. -/

/-- Result of one call of a start operation: how many attempts were made,
how many seconds were spent in `time.sleep(5)` calls between attempts, and
whether the call ended by re-raising the command failure. -/
structure StartResult where
  attempts : Nat
  sleepSeconds : Nat
  raised : Bool
deriving DecidableEq

/-- The retry loop `for attempt in range(retries)` shared by
`start_supabase` and `start_basic_services`; `remaining` is the number of
loop iterations left, so the loop starts with `remaining = retries`. -/
def startGo (outcome : Nat → Bool) (retries : Nat) :
    Nat → Nat → Nat → StartResult
  | attempt, sleepSec, 0 => ⟨attempt, sleepSec, false⟩
  | attempt, sleepSec, remaining + 1 =>
    if outcome attempt then ⟨attempt + 1, sleepSec, false⟩
    else if attempt < retries - 1 then
      startGo outcome retries (attempt + 1) (sleepSec + 5) remaining
    else ⟨attempt + 1, sleepSec, true⟩

/-- `start_supabase(environment, retries=3)` as called from `main` (which
leaves `retries` at its default 3). -/
def start_supabase (outcome : Nat → Bool) : StartResult :=
  startGo outcome 3 0 0 3

/-- `start_basic_services(environment, retries=3)` as called from `main`
(which leaves `retries` at its default 3). -/
def start_basic_services (outcome : Nat → Bool) : StartResult :=
  startGo outcome 3 0 0 3

/-! ## External commands issued by the scripts -/

/-- The external commands the two scripts can issue, abstracted to the
arguments that matter for the claims. -/
inductive Cmd where
  | composeDown (project : List Char) (profile : Option (List Char)) (file : List Char)
  | composeStop (project service : List Char)
  | gitClone
  | gitSparseInit
  | gitSparseSet (dir : List Char)
  | gitCheckout (branch : List Char)
  | gitStatus
  | gitStash
  | gitPull
  | gitStashPop
  | dockerPs
  | dockerInspect (name : List Char)
deriving DecidableEq

/-- A step of a script run: the commands it issued, and whether it ended by
raising an exception to its caller. -/
structure Step where
  issued : List Cmd
  raised : Bool
deriving DecidableEq

/-- `subprocess.run(cmd, check=True)` (the `run_command` helper of
`start_basics.py`): the command is issued and `CalledProcessError` is
raised exactly when it fails. -/
def runChecked (outcome : Cmd → Bool) (c : Cmd) : Step :=
  ⟨[c], !outcome c⟩

/-- `subprocess.run(cmd, check=False)` (the `run_command` helper of
`stop_all.py`, whose `check` parameter defaults to `False`): the command is
issued and a failure only prints a warning, it never raises. -/
def runUnchecked (outcome : Cmd → Bool) (c : Cmd) : Step :=
  ⟨(runChecked outcome c).issued, false⟩

/-- A `try: … except: …`-wrapped step whose handler only prints: the
commands issued are kept, the exception never propagates. -/
def catchStep (s : Step) : Step :=
  ⟨s.issued, false⟩

/-- Sequencing of two steps: the second runs only if the first one did not
raise. -/
def seqStep (s1 s2 : Step) : Step :=
  if s1.raised then s1 else ⟨s1.issued ++ s2.issued, s2.raised⟩

/-! ## `clone_supabase_repo` (start_basics.py, lines 28-61) -/

/-- The four commands of the clone branch taken when the `supabase`
directory does not exist: a blobless no-checkout clone, sparse-checkout
initialisation, sparse-checkout restriction to the single `docker`
subdirectory, and the checkout of `master`. -/
def cloneBranchCmds : List Cmd :=
  [Cmd.gitClone, Cmd.gitSparseInit, Cmd.gitSparseSet ("docker".toList),
   Cmd.gitCheckout ("master".toList)]

/-- `clone_supabase_repo()`: clone sparsely when the directory is absent;
otherwise `git status --porcelain`, and either stash + pull + a
`try`-wrapped `git stash pop` (when local changes exist) or a plain pull.
Every command runs under `check=True` except the stash pop, whose
`CalledProcessError` is caught and only warned about. -/
def clone_supabase_repo (outcome : Cmd → Bool) (dirExists hasChanges : Bool) :
    Step :=
  if dirExists = false then
    seqStep (runChecked outcome Cmd.gitClone)
      (seqStep (runChecked outcome Cmd.gitSparseInit)
        (seqStep (runChecked outcome (Cmd.gitSparseSet ("docker".toList)))
          (runChecked outcome (Cmd.gitCheckout ("master".toList)))))
  else if hasChanges then
    seqStep (runChecked outcome Cmd.gitStatus)
      (seqStep (runChecked outcome Cmd.gitStash)
        (seqStep (runChecked outcome Cmd.gitPull)
          (catchStep (runChecked outcome Cmd.gitStashPop))))
  else
    seqStep (runChecked outcome Cmd.gitStatus)
      (runChecked outcome Cmd.gitPull)

/-! ## `stop_existing_containers` (start_basics.py, lines 70-89) -/

/-- The project name both compose stacks are started under. -/
def localaiProject : List Char := "localai".toList

/-- The fixed list of basic services stopped one by one. -/
def basicServices : List (List Char) :=
  ["postgres".toList, "n8n".toList, "neo4j".toList, "searxng".toList]

/-- The Supabase compose file path used by `start_basics.py`. -/
def supabaseComposeFile : List Char := "supabase/docker/docker-compose.yml".toList

/-- `stop_existing_containers()`: a `try`-wrapped Supabase `down` followed by
a `try`-wrapped `stop` of each of the four basic services; every failure is
caught and only printed. -/
def stop_existing_containers (outcome : Cmd → Bool) : Step :=
  seqStep
    (catchStep (runChecked outcome
      (Cmd.composeDown localaiProject none supabaseComposeFile)))
    (List.foldl
      (fun acc svc =>
        seqStep acc (catchStep (runChecked outcome (Cmd.composeStop localaiProject svc))))
      ⟨[], false⟩ basicServices)

/-! ## `get_project_name` (stop_all.py, lines 24-54) -/

/-- The Docker environment `stop_all.py` observes.
`psOut = some names` models `docker ps -a` succeeding with nonempty stdout
whose stripped output splits into the container-name list `names`;
`psOut = none` models a nonzero return code or empty stdout.
`inspectLabel name = some v` models `docker inspect name` succeeding with
stripped compose-project-label output `v` (which may be empty);
`none` models a nonzero return code.
`cwdBase` is `os.path.basename(os.getcwd())`. -/
structure DockerEnv where
  psOut : Option (List (List Char))
  inspectLabel : List Char → Option (List Char)
  cwdBase : List Char

/-- The container-name test of the scan loop:
`'supabase' in container or 'local-ai-packaged' in container`. -/
def nameMatches (name : List Char) : Bool :=
  decide ("supabase".toList <:+: name) || decide ("local-ai-packaged".toList <:+: name)

/-- The scan loop of `get_project_name`: walk the container names in order;
on a name containing one of the known substrings, inspect its
compose-project label and return it when the inspection succeeded with a
nonempty stripped value, otherwise keep scanning. -/
def findProjectLabel (env : DockerEnv) : List (List Char) → Option (List Char)
  | [] => none
  | name :: rest =>
    if nameMatches name then
      match env.inspectLabel name with
      | some v => if v.isEmpty then findProjectLabel env rest else some v
      | none => findProjectLabel env rest
    else
      findProjectLabel env rest

/-- `get_project_name()`: the label found by the scan loop when `docker ps`
succeeded with output, and the base name of the current working directory
otherwise (also when the scan finds nothing). -/
def get_project_name (env : DockerEnv) : List Char :=
  match env.psOut with
  | some containers => (findProjectLabel env containers).getD env.cwdBase
  | none => env.cwdBase

/-! ## The stop functions of `stop_all.py` (lines 57-125) and its `main`
(lines 145-190).

All their external commands go through `stop_all.py`'s `run_command`,
whose `check` parameter defaults to `False`, so none of them can raise;
what matters for the claims is which `docker compose … down` commands are
issued. -/

/-- The main compose file name of the primary stack. -/
def composeFile : List Char := "docker-compose.yml".toList

/-- The three deployment profiles enumerated by
`stop_all_localai_containers`. -/
def knownProfiles : List (List Char) :=
  ["cpu".toList, "gpu-nvidia".toList, "gpu-amd".toList]

/-- `stop_supabase_stack(project_name)`: skipped entirely when the Supabase
compose file is absent, otherwise one unscoped `down` on it. -/
def stop_supabase_stack (supabaseComposeExists : Bool) (project : List Char) :
    List Cmd :=
  if supabaseComposeExists then
    [Cmd.composeDown project none supabaseComposeFile]
  else
    []

/-- `stop_local_ai_stack(project_name, profile)`: skipped entirely when
`docker-compose.yml` is absent; otherwise one `down`, scoped by
`--profile profile` exactly when `profile` is a nonempty string other than
`"none"`. -/
def stop_local_ai_stack (composeExists : Bool) (project : List Char)
    (profile : Option (List Char)) : List Cmd :=
  if composeExists = false then
    []
  else
    let scope : Option (List Char) :=
      match profile with
      | some p => if p.isEmpty = false ∧ p ≠ "none".toList then some p else none
      | none => none
    [Cmd.composeDown project scope composeFile]

/-- `stop_all_localai_containers(project_name)`: one `down` scoped to each
of the three known profiles, then one unscoped `down`, with no existence
check on the compose file. -/
def stop_all_localai_containers (project : List Char) : List Cmd :=
  (knownProfiles.map (fun p => Cmd.composeDown project (some p) composeFile))
    ++ [Cmd.composeDown project none composeFile]

/-- The primary-stack part of `main()` in `stop_all.py`: with
`--profile all` it calls `stop_all_localai_containers`, with any other
profile argument it calls `stop_local_ai_stack` on that profile. -/
def mainPrimaryStops (composeExists : Bool) (project profileArg : List Char) :
    List Cmd :=
  if profileArg = "all".toList then
    stop_all_localai_containers project
  else
    stop_local_ai_stack composeExists project (some profileArg)

/-- The whole command sequence of `main()` in `stop_all.py`: project-name
detection commands, the Supabase stop, the primary-stack stops, and the
optional remaining-containers listing; every command runs under
`check=False`, so the run never raises. -/
def stop_all_main (env : DockerEnv) (supabaseComposeExists composeExists : Bool)
    (profileArg : List Char) (checkRemaining : Bool) : Step :=
  let project := get_project_name env
  ⟨[Cmd.dockerPs]
     ++ stop_supabase_stack supabaseComposeExists project
     ++ mainPrimaryStops composeExists project profileArg
     ++ (if checkRemaining then [Cmd.dockerPs] else []),
   false⟩

/-- The tail of the active directive line after its head `'c'`. -/
def capTail : List Char := "ap_drop: - ALL".toList

/-- The tail of the sentinel comment after its head `'#'`. -/
def sentTail : List Char :=
  " cap_drop: - ALL  # Temporarily commented out for first run".toList

/-- The part of the sentinel comment after its embedded active directive. -/
def sentAfterCap : List Char :=
  "  # Temporarily commented out for first run".toList

/-- The tail of the placeholder token after its head `'u'`. -/
def ultraTail : List Char := "ltrasecretkey".toList

/-- Witness for C2 at a concrete settings-file content and a concrete
64-character lowercase-hex key. -/
def witKey : List Char :=
  "0123456789abcdef0123456789abcdef0123456789abcdef0123456789abcdef".toList

/-- A concrete settings-file content containing the placeholder. -/
def witSettings : List Char := "server:\n  secret_key: \"ultrasecretkey\"\n".toList

/-- A concrete settings-file content that no longer contains the
placeholder. -/
def witSettingsDone : List Char := "server:\n  secret_key: \"abc123\"\n".toList

/-- A concrete compose-file content containing neither directive form. -/
def witCompose : List Char :=
  "services:\n  searxng:\n    image: searxng/searxng:latest\n".toList

/-- A container name on which the scan loop of `get_project_name` stops:
its name contains a known substring and its label inspection succeeded
with a nonempty stripped value. -/
def goodContainer (env : DockerEnv) (name : List Char) : Bool :=
  nameMatches name && !((env.inspectLabel name).getD []).isEmpty

/-- A Docker environment with two running Supabase containers, where the
first matching container's label inspection yields an empty value and the
second one's yields `otherproj`; the working directory is `workspace`. -/
def envTwoSupabase : DockerEnv where
  psOut := some ["supabase-db".toList, "supabase-kong".toList]
  inspectLabel := fun n =>
    if n = "supabase-db".toList then some []
    else if n = "supabase-kong".toList then some ("otherproj".toList)
    else none
  cwdBase := "workspace".toList

/-- A trivial Docker environment for the C9 witness. -/
def c9Env : DockerEnv where
  psOut := none
  inspectLabel := fun _n => none
  cwdBase := "local-ai-packaged".toList

/-! ## General lemmas about list patterns and `replaceAllFuel` -/

/-- Sanity checks that `replaceAll` has CPython's left-to-right
non-overlapping `str.replace` semantics. -/
theorem replaceAllSample1 :
    replaceAll "ab".toList "X".toList "zababy".toList = "zXXy".toList := by
  decide

theorem replaceAllSample2 :
    replaceAll "aa".toList "b".toList "aaa".toList = "ba".toList := by
  decide

/-- Sanity checks of the retry loop. -/
theorem startSample1 :
    start_supabase (fun n => n == 2) = ⟨3, 10, false⟩ := by decide

theorem startSample2 : start_supabase (fun _n : Nat => false) = ⟨3, 10, true⟩ := by
  decide

theorem startSample3 : start_supabase (fun _n : Nat => true) = ⟨1, 0, false⟩ := by
  decide

/-- Sanity check: even when every command fails, all five stop commands of
`stop_existing_containers` are attempted and the function returns. -/
theorem stopExistingSample :
    stop_existing_containers (fun _c => false) =
      ⟨[Cmd.composeDown localaiProject none supabaseComposeFile,
        Cmd.composeStop localaiProject ("postgres".toList),
        Cmd.composeStop localaiProject ("n8n".toList),
        Cmd.composeStop localaiProject ("neo4j".toList),
        Cmd.composeStop localaiProject ("searxng".toList)], false⟩ := by
  decide

/-- A prefix of `x ++ y` is a prefix of `x` or extends all of `x` into `y`. -/
theorem splitOfPrefixAppend {α : Type} {p x y : List α} (h : p <+: x ++ y) :
    p <+: x ∨ ∃ q, p = x ++ q ∧ q <+: y := by
  rcases Nat.lt_or_ge x.length p.length with hlt | hle
  · have hx : x <+: p :=
      List.prefix_of_prefix_length_le (List.prefix_append x y) h (Nat.le_of_lt hlt)
    obtain ⟨q, rfl⟩ := hx
    exact Or.inr ⟨q, rfl, (List.prefix_append_right_inj x).mp h⟩
  · exact Or.inl (List.prefix_of_prefix_length_le h (List.prefix_append x y) hle)

/-- An occurrence of `p` inside `x ++ y` lies inside `x`, lies inside `y`,
or straddles the border: a nonempty prefix part of `p` is a suffix of `x`
and the nonempty remainder is a prefix of `y`. -/
theorem splitOfInfixAppend {α : Type} {p : List α} :
    ∀ {x y : List α}, p <:+: x ++ y →
      p <:+: x ∨ p <:+: y ∨
        ∃ p₁ p₂, p = p₁ ++ p₂ ∧ p₁ ≠ [] ∧ p₂ ≠ [] ∧ p₁ <:+ x ∧ p₂ <+: y := by
  intro x
  induction x with
  | nil =>
    intro y h
    exact Or.inr (Or.inl (by simpa using h))
  | cons a x' ih =>
    intro y h
    rw [show (a :: x') ++ y = a :: (x' ++ y) from rfl, List.infix_cons_iff] at h
    rcases h with h | h
    · rcases splitOfPrefixAppend (x := a :: x') h with h' | ⟨q, rfl, hq⟩
      · exact Or.inl h'.isInfix
      · rcases eq_or_ne q [] with rfl | hne
        · exact Or.inl (by simp)
        · exact Or.inr (Or.inr ⟨a :: x', q, rfl, by simp, hne, List.suffix_rfl, hq⟩)
    · rcases ih h with h' | h' | ⟨p₁, p₂, hp, h1, h2, hsuf, hpre⟩
      · exact Or.inl (h'.trans (List.suffix_cons a x').isInfix)
      · exact Or.inr (Or.inl h')
      · exact Or.inr (Or.inr ⟨p₁, p₂, hp, h1, h2, hsuf.trans (List.suffix_cons a x'), hpre⟩)

/-- An occurrence of `l` inside a tail extends to the whole list. -/
theorem infixOfCons {α : Type} {l t : List α} (a : α) (h : l <:+: t) :
    l <:+: a :: t :=
  h.trans (List.suffix_cons a t).isInfix

/-- Unfolding of the scan step of `replaceAllFuel` on a match. -/
theorem replaceAllFuelMatch (p0 : Char) (ps k : List Char) (fuel : Nat)
    (ch : Char) (rest : List Char) (h : (p0 :: ps) <+: ch :: rest) :
    replaceAllFuel p0 ps k (fuel + 1) (ch :: rest) =
      k ++ replaceAllFuel p0 ps k fuel (rest.drop ps.length) := by
  simp only [replaceAllFuel, if_pos h]

/-- Unfolding of the scan step of `replaceAllFuel` on a mismatch. -/
theorem replaceAllFuelCopy (p0 : Char) (ps k : List Char) (fuel : Nat)
    (ch : Char) (rest : List Char) (h : ¬ (p0 :: ps) <+: ch :: rest) :
    replaceAllFuel p0 ps k (fuel + 1) (ch :: rest) =
      ch :: replaceAllFuel p0 ps k fuel rest := by
  simp only [replaceAllFuel, if_neg h]

/-- How a probe list `q` can be a prefix of the output of the replacement
scan.  `probe` is closed under nonempty tails, its members are no longer
than the replacement `k`, and `k` is the only nonempty probe that is a
prefix of `k`.  Then a nonempty probe prefixing the output either is `k`
itself with the pattern matching at the start of the input, or is a prefix
of the input text below whose length no pattern match starts. -/
theorem probeOfReplaceOutput (p0 : Char) (ps k : List Char)
    (probe : List Char → Prop)
    (Htail : ∀ ch q, probe (ch :: q) → probe q)
    (Hlen : ∀ q, probe q → q.length ≤ k.length)
    (HprefK : ∀ q, probe q → q ≠ [] → q <+: k → q = k) :
    ∀ fuel c q, c.length ≤ fuel → probe q → q ≠ [] →
      q <+: replaceAllFuel p0 ps k fuel c →
      (q = k ∧ (p0 :: ps) <+: c) ∨
        (q <+: c ∧ ∀ i, i < q.length → ¬ (p0 :: ps) <+: c.drop i) := by
  intro fuel
  induction fuel with
  | zero =>
    intro c q hc hq hne hpre
    rw [Nat.le_zero, List.length_eq_zero] at hc
    subst hc
    simp only [replaceAllFuel, List.prefix_nil] at hpre
    exact absurd hpre hne
  | succ fuel ih =>
    intro c q hc hq hne hpre
    match c with
    | [] =>
      simp only [replaceAllFuel, List.prefix_nil] at hpre
      exact absurd hpre hne
    | ch :: rest =>
      by_cases hm : (p0 :: ps) <+: ch :: rest
      · rw [replaceAllFuelMatch p0 ps k fuel ch rest hm] at hpre
        have hqk : q <+: k :=
          List.prefix_of_prefix_length_le hpre (List.prefix_append k _) (Hlen q hq)
        exact Or.inl ⟨HprefK q hq hne hqk, hm⟩
      · rw [replaceAllFuelCopy p0 ps k fuel ch rest hm] at hpre
        match q with
        | [] => exact absurd rfl hne
        | q0 :: q' =>
          rw [List.cons_prefix_cons] at hpre
          obtain ⟨rfl, hpre'⟩ := hpre
          rcases eq_or_ne q' [] with rfl | hne'
          · refine Or.inr ⟨by simp, ?_⟩
            intro i hi
            have : i = 0 := by simpa using hi
            subst this
            simpa using hm
          · have hq' : probe q' := Htail q0 q' hq
            have hrest : rest.length ≤ fuel := by
              simp only [List.length_cons] at hc
              omega
            rcases ih rest q' hrest hq' hne' hpre' with ⟨hk, _⟩ | ⟨hp, hnomatch⟩
            · exfalso
              have hlen2 := Hlen (q0 :: q') hq
              rw [← hk] at hlen2
              simp only [List.length_cons] at hlen2
              omega
            · refine Or.inr ⟨List.cons_prefix_cons.mpr ⟨rfl, hp⟩, ?_⟩
              intro i hi
              match i with
              | 0 => simpa using hm
              | j + 1 =>
                simp only [List.drop_succ_cons]
                exact hnomatch j (by simpa using Nat.lt_of_succ_lt_succ hi)

/-- After the replacement scan, the pattern no longer occurs anywhere in the
output, provided the replacement `k` cannot hide an occurrence: the leading
pattern character is not a character of `k`, `k` is at least as long as the
pattern, and the only nonempty suffix of the pattern that is a prefix of
`k` would be `k` itself. -/
theorem noPatternInOutput (p0 : Char) (ps k : List Char)
    (HK2 : p0 ∉ k)
    (Hlen : (p0 :: ps).length ≤ k.length)
    (HprefK : ∀ q, q <:+ (p0 :: ps) → q ≠ [] → q <+: k → q = k) :
    ∀ fuel c, c.length ≤ fuel →
      ¬ ((p0 :: ps) <:+: replaceAllFuel p0 ps k fuel c) := by
  intro fuel
  induction fuel with
  | zero =>
    intro c hc h
    rw [Nat.le_zero, List.length_eq_zero] at hc
    subst hc
    simp only [replaceAllFuel, List.infix_nil] at h
    exact List.cons_ne_nil p0 ps h
  | succ fuel ih =>
    intro c hc h
    match c with
    | [] =>
      simp only [replaceAllFuel, List.infix_nil] at h
      exact List.cons_ne_nil p0 ps h
    | ch :: rest =>
      by_cases hm : (p0 :: ps) <+: ch :: rest
      · rw [replaceAllFuelMatch p0 ps k fuel ch rest hm] at h
        rcases splitOfInfixAppend h with h' | h' | ⟨p₁, p₂, hp, h1, _, hsuf, _⟩
        · exact HK2 (h'.subset (List.mem_cons_self p0 ps))
        · have hdrop : (rest.drop ps.length).length ≤ fuel := by
            simp only [List.length_cons] at hc
            simp only [List.length_drop]
            omega
          exact ih (rest.drop ps.length) hdrop h'
        · match p₁, hp with
          | q0 :: p₁', hp =>
            have hq0 : q0 = p0 := by
              have := congrArg (List.head? ·) hp
              simpa using this.symm
            subst hq0
            exact HK2 (hsuf.subset (List.mem_cons_self q0 p₁'))
      · rw [replaceAllFuelCopy p0 ps k fuel ch rest hm] at h
        rw [List.infix_cons_iff] at h
        rcases h with h | h
        · rw [← replaceAllFuelCopy p0 ps k fuel ch rest hm] at h
          have hprobe :
              ((p0 :: ps) = k ∧ (p0 :: ps) <+: ch :: rest) ∨
                ((p0 :: ps) <+: ch :: rest ∧
                  ∀ i, i < (p0 :: ps).length → ¬ (p0 :: ps) <+: (ch :: rest).drop i) :=
            probeOfReplaceOutput p0 ps k (· <:+ (p0 :: ps))
              (fun ch' q hq => (List.suffix_cons ch' q).trans hq)
              (fun q hq => Nat.le_trans hq.length_le Hlen)
              HprefK (fuel + 1) (ch :: rest) (p0 :: ps) hc List.suffix_rfl
              (by simp) h
          rcases hprobe with ⟨_, h'⟩ | ⟨h', _⟩
          · exact hm h'
          · exact hm h'
        · have hrest : rest.length ≤ fuel := by
            simp only [List.length_cons] at hc
            omega
          exact ih rest hrest h

/-- If the pattern occurs in the input, the replacement `k` occurs in the
output of the replacement scan. -/
theorem keyInOutput (p0 : Char) (ps k : List Char) :
    ∀ fuel c, c.length ≤ fuel → (p0 :: ps) <:+: c →
      k <:+: replaceAllFuel p0 ps k fuel c := by
  intro fuel
  induction fuel with
  | zero =>
    intro c hc h
    rw [Nat.le_zero, List.length_eq_zero] at hc
    subst hc
    simp at h
  | succ fuel ih =>
    intro c hc h
    match c with
    | [] => simp at h
    | ch :: rest =>
      by_cases hm : (p0 :: ps) <+: ch :: rest
      · rw [replaceAllFuelMatch p0 ps k fuel ch rest hm]
        exact ⟨[], replaceAllFuel p0 ps k fuel (rest.drop ps.length), by simp⟩
      · rw [replaceAllFuelCopy p0 ps k fuel ch rest hm]
        rw [List.infix_cons_iff] at h
        rcases h with h | h
        · exact absurd h hm
        · have hrest : rest.length ≤ fuel := by
            simp only [List.length_cons] at hc
            omega
          exact infixOfCons ch (ih rest hrest h)

/-- `replaceAllFuel` maps empty text to empty text at every fuel. -/
theorem replaceAllFuelNil (p0 : Char) (ps k : List Char) (fuel : Nat) :
    replaceAllFuel p0 ps k fuel [] = [] := by
  cases fuel <;> rfl

/-! ## Concrete facts about the two directive strings of
`check_and_fix_docker_compose_for_searxng` -/

theorem capDropEq : capDropLine = 'c' :: capTail := by decide

theorem sentinelEq : sentinelLine = '#' :: sentTail := by decide

/-- The sentinel comment is two characters, then the active directive, then
a trailing comment. -/
theorem sentinelSplit :
    sentinelLine = "# ".toList ++ (capDropLine ++ sentAfterCap) := by decide

/-- The sentinel comment has no nontrivial border: its only nonempty suffix
that is also a prefix of it is the whole line. -/
theorem sentBorderFree :
    ∀ q ∈ sentinelLine.tails, q ≠ [] → q <+: sentinelLine → q = sentinelLine := by
  decide

/-- The commenting-out scan followed by the uncommenting scan restores the
original compose-file content, at any sufficient fuels. -/
theorem roundTripFuel :
    ∀ fuel1 c fuel2, c.length ≤ fuel1 →
      (replaceAllFuel 'c' capTail sentinelLine fuel1 c).length ≤ fuel2 →
      replaceAllFuel '#' sentTail capDropLine fuel2
        (replaceAllFuel 'c' capTail sentinelLine fuel1 c) = c := by
  intro fuel1
  induction fuel1 with
  | zero =>
    intro c fuel2 hc _
    rw [Nat.le_zero, List.length_eq_zero] at hc
    subst hc
    rw [replaceAllFuelNil, replaceAllFuelNil]
  | succ fuel1 ih =>
    intro c fuel2 hc hlen2
    match c with
    | [] => rw [replaceAllFuelNil, replaceAllFuelNil]
    | ch :: rest =>
      by_cases hm : ('c' :: capTail) <+: ch :: rest
      · rw [replaceAllFuelMatch 'c' capTail sentinelLine fuel1 ch rest hm] at hlen2 ⊢
        have hsent : sentinelLine ++
            replaceAllFuel 'c' capTail sentinelLine fuel1 (rest.drop capTail.length) =
            '#' :: (sentTail ++
              replaceAllFuel 'c' capTail sentinelLine fuel1 (rest.drop capTail.length)) := by
          rw [sentinelEq]
          rfl
        rw [hsent] at hlen2 ⊢
        match fuel2, hlen2 with
        | f2 + 1, hlen2 =>
          have hSpre : ('#' :: sentTail) <+:
              '#' :: (sentTail ++
                replaceAllFuel 'c' capTail sentinelLine fuel1 (rest.drop capTail.length)) :=
            List.cons_prefix_cons.mpr ⟨rfl, List.prefix_append _ _⟩
          rw [replaceAllFuelMatch '#' sentTail capDropLine f2 _ _ hSpre]
          rw [List.drop_left]
          have hdroplen : (rest.drop capTail.length).length ≤ fuel1 := by
            simp only [List.length_cons] at hc
            simp only [List.length_drop]
            omega
          have hYlen :
              (replaceAllFuel 'c' capTail sentinelLine fuel1
                (rest.drop capTail.length)).length ≤ f2 := by
            simp only [List.length_cons, List.length_append] at hlen2
            omega
          rw [ih (rest.drop capTail.length) f2 hdroplen hYlen]
          rw [List.cons_prefix_cons] at hm
          obtain ⟨rfl, hm'⟩ := hm
          obtain ⟨t, ht⟩ := hm'
          rw [← ht, List.drop_left, capDropEq]
          rfl
      · rw [replaceAllFuelCopy 'c' capTail sentinelLine fuel1 ch rest hm] at hlen2 ⊢
        match fuel2, hlen2 with
        | f2 + 1, hlen2 =>
          have hS : ¬ ('#' :: sentTail) <+:
              ch :: replaceAllFuel 'c' capTail sentinelLine fuel1 rest := by
            intro hS
            rw [← replaceAllFuelCopy 'c' capTail sentinelLine fuel1 ch rest hm,
              ← sentinelEq] at hS
            have hprobe :=
              probeOfReplaceOutput 'c' capTail sentinelLine (· <:+ sentinelLine)
                (fun ch' q hq => (List.suffix_cons ch' q).trans hq)
                (fun q hq => hq.length_le)
                (fun q hq => sentBorderFree q ((List.mem_tails q sentinelLine).mpr hq))
                (fuel1 + 1) (ch :: rest) sentinelLine hc List.suffix_rfl
                (by rw [sentinelEq]; simp) hS
            rcases hprobe with ⟨_, h'⟩ | ⟨h', hnomatch⟩
            · exact hm h'
            · obtain ⟨t, ht⟩ := h'
              have hdrop2 : (ch :: rest).drop 2 = capDropLine ++ (sentAfterCap ++ t) := by
                rw [← ht, sentinelSplit, List.append_assoc,
                  List.drop_left' (by rfl), List.append_assoc]
              have h2lt : 2 < sentinelLine.length := by decide
              refine hnomatch 2 h2lt ?_
              rw [hdrop2, ← capDropEq]
              exact List.prefix_append _ _
          rw [replaceAllFuelCopy '#' sentTail capDropLine f2 _ _ hS]
          have hrest : rest.length ≤ fuel1 := by
            simp only [List.length_cons] at hc
            omega
          have hYlen :
              (replaceAllFuel 'c' capTail sentinelLine fuel1 rest).length ≤ f2 := by
            simp only [List.length_cons] at hlen2
            omega
          rw [ih rest f2 hrest hYlen]

/-! ## Bridging `replaceAll` at the three concrete patterns -/

theorem ultraEq : ultrasecretkey = 'u' :: ultraTail := by decide

theorem replaceAllUltraEq (k c : List Char) :
    replaceAll ultrasecretkey k c = replaceAllFuel 'u' ultraTail k c.length c := by
  rw [ultraEq]
  rfl

theorem replaceAllCapEq (c : List Char) :
    replaceAll capDropLine sentinelLine c =
      replaceAllFuel 'c' capTail sentinelLine c.length c := by
  rw [capDropEq]
  rfl

theorem replaceAllSentEq (c : List Char) :
    replaceAll sentinelLine capDropLine c =
      replaceAllFuel '#' sentTail capDropLine c.length c := by
  rw [sentinelEq]
  rfl

/-- Every nonempty suffix of the placeholder token contains the character
`'y'`, which `openssl rand -hex` can never output. -/
theorem ultraSuffixHasY :
    ∀ q ∈ ultrasecretkey.tails, q ≠ [] → 'y' ∈ q := by decide

/-! ## Claim theorems -/

/-- C3: applying the security-directive toggle and then its reversal is the
identity on the compose file's content: for every file content, replacing
the active directive line `cap_drop: - ALL` with the sentinel comment form
and then replacing the sentinel comment form back yields byte-identical
content. -/
theorem c3_toggle_round_trip (content : List Char) :
    replaceAll sentinelLine capDropLine
      (replaceAll capDropLine sentinelLine content) = content := by
  rw [replaceAllCapEq, replaceAllSentEq]
  exact roundTripFuel content.length content _ Nat.le.refl Nat.le.refl

/-- For a key at least as long as the placeholder and made of lowercase hex
characters only, the placeholder cannot occur in the replaced content. -/
theorem noUltraInReplaced (content key : List Char)
    (hlen : ultrasecretkey.length ≤ key.length)
    (hhex : ∀ ch ∈ key, isLowerHex ch = true) :
    ¬ ultrasecretkey <:+: replaceAll ultrasecretkey key content := by
  rw [replaceAllUltraEq]
  rw [ultraEq] at hlen ⊢
  refine noPatternInOutput 'u' ultraTail key ?_ hlen ?_ content.length content
    Nat.le.refl
  · intro hu
    exact absurd (hhex 'u' hu) (by decide)
  · intro q hq hne hk
    have hy : 'y' ∈ q :=
      ultraSuffixHasY q ((List.mem_tails q ultrasecretkey).mpr (ultraEq ▸ hq)) hne
    exact absurd (hhex 'y' (hk.subset hy)) (by decide)

/-- C2: for every settings-file content containing the placeholder token
`ultrasecretkey`, the secret-generation step (with the key generator
returning a 32-byte value rendered as 64 lowercase hex characters) rewrites
the file, the new content contains the 64-character hexadecimal key in
place of the placeholder, and the placeholder no longer occurs anywhere in
the new content. -/
theorem c2_placeholder_replaced (content key : List Char)
    (hin : ultrasecretkey <:+: content)
    (hlen : key.length = 64)
    (hhex : ∀ ch ∈ key, isLowerHex ch = true) :
    generate_searxng_secret_key content key =
        some (replaceAll ultrasecretkey key content) ∧
      key <:+: replaceAll ultrasecretkey key content ∧
      ¬ ultrasecretkey <:+: replaceAll ultrasecretkey key content := by
  refine ⟨by rw [generate_searxng_secret_key, if_pos hin], ?_, ?_⟩
  · rw [replaceAllUltraEq]
    exact keyInOutput 'u' ultraTail key content.length content Nat.le.refl
      (ultraEq ▸ hin)
  · exact noUltraInReplaced content key (by rw [hlen]; decide) hhex

/-- C5: the secret-generation step is idempotent: on a settings file not
containing the placeholder token it performs no write, and in particular
the content produced by one successful generation (with a 64-character
lowercase-hex key) is never rewritten by a later run of the step. -/
theorem c5_secret_generation_idempotent (content key key2 : List Char)
    (hlen : key.length = 64)
    (hhex : ∀ ch ∈ key, isLowerHex ch = true) :
    (¬ ultrasecretkey <:+: content →
      generate_searxng_secret_key content key2 = none) ∧
    (∀ r, generate_searxng_secret_key content key = some r →
      generate_searxng_secret_key r key2 = none) := by
  constructor
  · intro h
    rw [generate_searxng_secret_key, if_neg h]
  · intro r hr
    rw [generate_searxng_secret_key] at hr
    by_cases hin : ultrasecretkey <:+: content
    · rw [if_pos hin] at hr
      rw [generate_searxng_secret_key, if_neg]
      rw [← Option.some_inj.mp hr]
      exact noUltraInReplaced content key (by rw [hlen]; decide) hhex
    · rw [if_neg hin] at hr
      exact absurd hr (by simp)

theorem c2_placeholder_replaced_witness :
    (ultrasecretkey <:+: witSettings ∧ witKey.length = 64 ∧
      ∀ ch ∈ witKey, isLowerHex ch = true) ∧
    (generate_searxng_secret_key witSettings witKey =
        some (replaceAll ultrasecretkey witKey witSettings) ∧
      witKey <:+: replaceAll ultrasecretkey witKey witSettings ∧
      ¬ ultrasecretkey <:+: replaceAll ultrasecretkey witKey witSettings) :=
  ⟨⟨by decide, by decide, by decide⟩,
    c2_placeholder_replaced witSettings witKey (by decide) (by decide) (by decide)⟩

theorem c5_secret_generation_idempotent_witness :
    (witKey.length = 64 ∧ (∀ ch ∈ witKey, isLowerHex ch = true) ∧
      ¬ ultrasecretkey <:+: witSettingsDone) ∧
    generate_searxng_secret_key witSettingsDone witKey = none :=
  ⟨⟨by decide, by decide, by decide⟩,
    (c5_secret_generation_idempotent witSettingsDone witKey witKey (by decide)
      (by decide)).1 (by decide)⟩

/-- C10: if the compose-file content contains neither the active directive
line `cap_drop: - ALL` nor the sentinel comment form, then whatever the
outcome of the first-run detection, the security-directive check performs
no write, leaving the file byte-for-byte unchanged. -/
theorem c10_no_directive_no_write (insp : Inspection) (content : List Char)
    (h1 : ¬ capDropLine <:+: content)
    (h2 : ¬ sentinelLine <:+: content) :
    check_and_fix_docker_compose_for_searxng insp content = none := by
  rw [check_and_fix_docker_compose_for_searxng,
    if_neg (fun h => h1 h.2), if_neg (fun h => h2 h.2)]

theorem c10_no_directive_no_write_witness :
    ((¬ capDropLine <:+: witCompose) ∧ ¬ sentinelLine <:+: witCompose) ∧
    check_and_fix_docker_compose_for_searxng Inspection.noContainer witCompose =
      none :=
  ⟨⟨by decide, by decide⟩,
    c10_no_directive_no_write Inspection.noContainer witCompose (by decide)
      (by decide)⟩

/-- C1 (code bug): the first-run classification of
`check_and_fix_docker_compose_for_searxng` evaluated on the inspection
outcomes.  When a SearXNG container is running and the marker file
`/etc/searxng/uwsgi.ini` is absent, the `docker exec` probe prints
`not_found`, the substring test `"found" in stdout` nevertheless succeeds,
and the run is classified as NOT a first run (`false`), so with the
sentinel comment present the directive is restored instead of being left
commented out; the failure and no-container cases do default to first run,
and the marker-present case is classified as not-first-run. -/
theorem c1_marker_absent_misclassified :
    is_first_run (Inspection.execOut ("not_found\n".toList)) = false ∧
    is_first_run (Inspection.execOut ("found\n".toList)) = false ∧
    is_first_run Inspection.failure = true ∧
    is_first_run Inspection.noContainer = true ∧
    check_and_fix_docker_compose_for_searxng
        (Inspection.execOut ("not_found\n".toList)) sentinelLine =
      some (replaceAll sentinelLine capDropLine sentinelLine) := by
  refine ⟨by decide, by decide, by decide, by decide, ?_⟩
  rw [check_and_fix_docker_compose_for_searxng, if_neg, if_pos]
  · exact ⟨by decide, List.infix_rfl⟩
  · intro h
    exact absurd h.1 (by decide)

/-- C4: with the default attempt count of 3, a start-stack operation whose
command fails on the first two attempts and succeeds on the third returns
normally after 3 attempts and two 5-second waits; one whose command fails
on three consecutive attempts re-raises after exactly 3 attempts, again
with a 5-second wait between consecutive attempts.  Both `start_supabase`
and `start_basic_services` behave this way. -/
theorem c4_retry_behavior (o1 o2 : Nat → Bool)
    (h1a : o1 0 = false) (h1b : o1 1 = false) (h1c : o1 2 = true)
    (h2 : ∀ n, o2 n = false) :
    (start_supabase o1 = ⟨3, 10, false⟩ ∧
      start_basic_services o1 = ⟨3, 10, false⟩) ∧
    (start_supabase o2 = ⟨3, 10, true⟩ ∧
      start_basic_services o2 = ⟨3, 10, true⟩) := by
  simp [start_supabase, start_basic_services, startGo, h1a, h1b, h1c, h2]

theorem c4_retry_behavior_witness :
    (((fun n : Nat => decide (n = 2)) 0 = false ∧
        (fun n : Nat => decide (n = 2)) 1 = false ∧
        (fun n : Nat => decide (n = 2)) 2 = true ∧
        ∀ n, (fun _n : Nat => false) n = false) ∧
      start_supabase (fun n : Nat => decide (n = 2)) = ⟨3, 10, false⟩) ∧
    start_supabase (fun _n : Nat => false) = ⟨3, 10, true⟩ :=
  ⟨⟨⟨by decide, by decide, by decide, fun _ => rfl⟩,
      ((c4_retry_behavior (fun n : Nat => decide (n = 2)) (fun _n : Nat => false)
        (by decide) (by decide) (by decide) (fun _ => rfl)).1).1⟩,
    ((c4_retry_behavior (fun n : Nat => decide (n = 2)) (fun _n : Nat => false)
      (by decide) (by decide) (by decide) (fun _ => rfl)).2).1⟩

/-- C6 counterexample: a teardown run with the single named profile `cpu`
in a directory without `docker-compose.yml` issues NO primary-stack stop at
all, refuting "for every run with a single named profile … exactly one
stop scoped to that profile is issued". -/
theorem c6_counterexample :
    mainPrimaryStops false [] ("cpu".toList) = [] ∧
    (mainPrimaryStops false [] ("cpu".toList)).length ≠ 1 := by
  constructor <;> decide

/-- C6 (amended): with `--profile all` the primary-stack stop is issued
once for each of the three known profiles plus exactly one additional
unscoped stop, with no existence check; with a single named profile drawn
from the three known ones, exactly one stop scoped to that profile is
issued provided `docker-compose.yml` exists, and no primary-stack stop is
issued when it is absent. -/
theorem c6_amended_stop_counts (composeExists : Bool) (project p : List Char)
    (hp : p ∈ knownProfiles) :
    mainPrimaryStops composeExists project ("all".toList) =
      [Cmd.composeDown project (some ("cpu".toList)) composeFile,
       Cmd.composeDown project (some ("gpu-nvidia".toList)) composeFile,
       Cmd.composeDown project (some ("gpu-amd".toList)) composeFile,
       Cmd.composeDown project none composeFile] ∧
    mainPrimaryStops true project p =
      [Cmd.composeDown project (some p) composeFile] ∧
    mainPrimaryStops false project p = [] := by
  have hp3 : p = "cpu".toList ∨ p = "gpu-nvidia".toList ∨ p = "gpu-amd".toList := by
    simpa [knownProfiles] using hp
  refine ⟨by rw [mainPrimaryStops, if_pos rfl]; rfl, ?_, ?_⟩ <;>
    rcases hp3 with rfl | rfl | rfl <;>
      (rw [mainPrimaryStops, if_neg (by decide)]; rfl)

theorem c6_amended_stop_counts_witness :
    ("cpu".toList ∈ knownProfiles) ∧
    mainPrimaryStops true [] ("cpu".toList) =
      [Cmd.composeDown [] (some ("cpu".toList)) composeFile] :=
  ⟨by decide,
    (c6_amended_stop_counts true [] ("cpu".toList) (by decide)).2.1⟩

/-- The scan loop finds nothing on a list without good containers. -/
theorem findProjectLabelNone (env : DockerEnv) :
    ∀ cs : List (List Char), (∀ n ∈ cs, goodContainer env n = false) →
      findProjectLabel env cs = none := by
  intro cs
  induction cs with
  | nil => intro _; rfl
  | cons name rest ih =>
    intro h
    have hname := h name (List.mem_cons_self name rest)
    have hrest := fun n hn => h n (List.mem_cons_of_mem name hn)
    rw [goodContainer] at hname
    by_cases hm : nameMatches name = true
    · rw [hm, Bool.true_and] at hname
      cases hv : env.inspectLabel name with
      | none => simp [findProjectLabel, hm, hv, ih hrest]
      | some v =>
        rw [hv] at hname
        have hemp : v.isEmpty = true := by simpa using hname
        simp [findProjectLabel, hm, hv, hemp, ih hrest]
    · simp [findProjectLabel, hm, ih hrest]

/-- The scan loop returns the label of the first good container. -/
theorem findProjectLabelGood (env : DockerEnv) :
    ∀ (pre : List (List Char)) (name : List Char) (post : List (List Char))
      (v : List Char),
      (∀ n ∈ pre, goodContainer env n = false) →
      nameMatches name = true → env.inspectLabel name = some v →
      v.isEmpty = false →
      findProjectLabel env (pre ++ name :: post) = some v := by
  intro pre
  induction pre with
  | nil =>
    intro name post v _ hm hv hve
    simp [findProjectLabel, hm, hv, hve]
  | cons n0 rest ih =>
    intro name post v h hm hv hve
    have hn0 := h n0 (List.mem_cons_self n0 rest)
    have hrest := fun n hn => h n (List.mem_cons_of_mem n0 hn)
    rw [goodContainer] at hn0
    have ihr := ih name post v hrest hm hv hve
    by_cases hm0 : nameMatches n0 = true
    · rw [hm0, Bool.true_and] at hn0
      cases hv0 : env.inspectLabel n0 with
      | none => simp [findProjectLabel, hm0, hv0, ihr]
      | some v0 =>
        rw [hv0] at hn0
        have hemp : v0.isEmpty = true := by simpa using hn0
        simp [findProjectLabel, hm0, hv0, hemp, ihr]
    · simp [findProjectLabel, hm0, ihr]

/-- C7 counterexample: in `envTwoSupabase` the first running container
whose name contains a known substring is `supabase-db`, and its label
inspection yields an empty value, so the claim as stated requires the
fallback `workspace`; the code instead keeps scanning and returns the
second matching container's label `otherproj`. -/
theorem c7_counterexample :
    get_project_name envTwoSupabase = "otherproj".toList ∧
    get_project_name envTwoSupabase ≠ "workspace".toList := by
  constructor <;> decide

/-- C7 (amended): teardown's project-identity resolution returns the
compose-project label of the first running container whose name contains a
known substring AND whose label inspection yields a non-empty value
(matching containers with failed or empty inspections are skipped, not a
trigger for the fallback); when the container listing fails or no such
container exists it returns the base name of the current working
directory. -/
theorem c7_amended_project_resolution (env : DockerEnv) :
    (env.psOut = none → get_project_name env = env.cwdBase) ∧
    (∀ cs, env.psOut = some cs →
      (∀ n ∈ cs, goodContainer env n = false) →
      get_project_name env = env.cwdBase) ∧
    (∀ pre name post v, env.psOut = some (pre ++ name :: post) →
      (∀ n ∈ pre, goodContainer env n = false) →
      nameMatches name = true → env.inspectLabel name = some v →
      v.isEmpty = false →
      get_project_name env = v) := by
  refine ⟨?_, ?_, ?_⟩
  · intro h
    rw [get_project_name, h]
  · intro cs h hall
    rw [get_project_name, h]
    show (findProjectLabel env cs).getD env.cwdBase = env.cwdBase
    rw [findProjectLabelNone env cs hall]
    rfl
  · intro pre name post v h hall hm hv hve
    rw [get_project_name, h]
    show (findProjectLabel env (pre ++ name :: post)).getD env.cwdBase = v
    rw [findProjectLabelGood env pre name post v hall hm hv hve]
    rfl

theorem c7_amended_project_resolution_witness :
    (envTwoSupabase.psOut =
        some (["supabase-db".toList] ++ "supabase-kong".toList :: []) ∧
      (∀ n ∈ ["supabase-db".toList], goodContainer envTwoSupabase n = false) ∧
      nameMatches ("supabase-kong".toList) = true ∧
      envTwoSupabase.inspectLabel ("supabase-kong".toList) =
        some ("otherproj".toList) ∧
      ("otherproj".toList).isEmpty = false) ∧
    get_project_name envTwoSupabase = "otherproj".toList :=
  ⟨⟨rfl, by decide, by decide, rfl, by decide⟩,
    (c7_amended_project_resolution envTwoSupabase).2.2
      ["supabase-db".toList] ("supabase-kong".toList) [] ("otherproj".toList)
      rfl (by decide) (by decide) rfl (by decide)⟩

/-- C8: when the dependency repository directory is absent, bring-up
performs a clone followed by a sparse-checkout restricted to the single
`docker` subdirectory; when it is present, it performs a pull instead —
first stashing when uncommitted local modifications exist, and tolerating a
failed `git stash pop` (whatever its outcome) without raising.  `hall`
assumes the other git commands succeed, which the claim presupposes. -/
theorem c8_clone_vs_pull (outcome : Cmd → Bool)
    (hall : ∀ c, c ≠ Cmd.gitStashPop → outcome c = true) :
    (∀ hasChanges : Bool, clone_supabase_repo outcome false hasChanges =
      ⟨cloneBranchCmds, false⟩) ∧
    clone_supabase_repo outcome true true =
      ⟨[Cmd.gitStatus, Cmd.gitStash, Cmd.gitPull, Cmd.gitStashPop], false⟩ ∧
    clone_supabase_repo outcome true false =
      ⟨[Cmd.gitStatus, Cmd.gitPull], false⟩ := by
  refine ⟨fun hasChanges => ?_, ?_, ?_⟩ <;>
    simp [clone_supabase_repo, seqStep, runChecked, catchStep, cloneBranchCmds,
      hall]

theorem c8_clone_vs_pull_witness :
    (∀ c, c ≠ Cmd.gitStashPop →
      (fun c => decide (c ≠ Cmd.gitStashPop)) c = true) ∧
    (clone_supabase_repo (fun c => decide (c ≠ Cmd.gitStashPop)) false true =
        ⟨cloneBranchCmds, false⟩ ∧
      clone_supabase_repo (fun c => decide (c ≠ Cmd.gitStashPop)) true true =
        ⟨[Cmd.gitStatus, Cmd.gitStash, Cmd.gitPull, Cmd.gitStashPop], false⟩) :=
  ⟨fun c hc => by simp [hc],
    ⟨(c8_clone_vs_pull (fun c => decide (c ≠ Cmd.gitStashPop))
        (fun c hc => by simp [hc])).1 true,
      (c8_clone_vs_pull (fun c => decide (c ≠ Cmd.gitStashPop))
        (fun c hc => by simp [hc])).2.1⟩⟩

/-- C9: failures of the best-effort steps never abort the run.  For every
command-outcome assignment: `stop_existing_containers` still attempts the
Supabase `down` and all four service stops and returns normally; a failed
`git stash pop` (its outcome is unconstrained) leaves the update branch of
`clone_supabase_repo` returning normally; a failed container inspection
defaults the first-run classification to first run; and a teardown run
issues every one of its steps and never raises, whatever the commands'
outcomes. -/
theorem c9_best_effort_never_aborts (outcome : Cmd → Bool) (env : DockerEnv)
    (sce ce crm : Bool) (profileArg : List Char) :
    stop_existing_containers outcome =
      ⟨[Cmd.composeDown localaiProject none supabaseComposeFile,
        Cmd.composeStop localaiProject ("postgres".toList),
        Cmd.composeStop localaiProject ("n8n".toList),
        Cmd.composeStop localaiProject ("neo4j".toList),
        Cmd.composeStop localaiProject ("searxng".toList)], false⟩ ∧
    (outcome Cmd.gitStatus = true → outcome Cmd.gitStash = true →
      outcome Cmd.gitPull = true →
      (clone_supabase_repo outcome true true).raised = false) ∧
    is_first_run Inspection.failure = true ∧
    (stop_all_main env sce ce profileArg crm).raised = false ∧
    (stop_all_main env sce ce profileArg crm).issued =
      [Cmd.dockerPs] ++ stop_supabase_stack sce (get_project_name env)
        ++ mainPrimaryStops ce (get_project_name env) profileArg
        ++ (if crm then [Cmd.dockerPs] else []) := by
  refine ⟨?_, ?_, rfl, rfl, rfl⟩
  · simp [stop_existing_containers, seqStep, catchStep, runChecked,
      basicServices]
  · intro h5 h6 h7
    simp [clone_supabase_repo, seqStep, runChecked, catchStep, h5, h6, h7]

theorem c9_best_effort_never_aborts_witness :
    ((fun c => decide (c ≠ Cmd.gitStashPop)) Cmd.gitStatus = true ∧
      (fun c => decide (c ≠ Cmd.gitStashPop)) Cmd.gitStash = true ∧
      (fun c => decide (c ≠ Cmd.gitStashPop)) Cmd.gitPull = true) ∧
    (clone_supabase_repo (fun c => decide (c ≠ Cmd.gitStashPop)) true
        true).raised = false ∧
    (stop_all_main c9Env true true ("all".toList) false).raised = false :=
  ⟨⟨by decide, by decide, by decide⟩,
    (c9_best_effort_never_aborts (fun c => decide (c ≠ Cmd.gitStashPop)) c9Env
      true true false ("all".toList)).2.1 (by decide) (by decide) (by decide),
    (c9_best_effort_never_aborts (fun c => decide (c ≠ Cmd.gitStashPop)) c9Env
      true true false ("all".toList)).2.2.2.1⟩
